import Mathlib

/-!
Verification of the meeting-scheduling tool (`scheduler.py`).

The Python program builds a CP-SAT model assigning members of roles to
meeting blocks.  We give a shallow embedding: the roster normalisation,
the variable-key set, the four constraint families, the objective, the
fixed-meeting handling (including its fallible dictionary lookups and
`int(r[-1])` role-name parsing), and the status dispatch of the renderer.
Machine behaviours that can raise (`KeyError`, `ValueError`, `IndexError`)
are modelled with `Except String`.
-/

/-- A shift-variable key `(block, role, member)`, mirroring the Python
dictionary `shifts[(t, r, e)]` of `scheduler.py` line 55. -/
abbrev SKey := Nat × Nat × Nat

/-- The constraint vocabulary emitted by the builder.  Each constructor
corresponds to one `model.Add...` call shape in `scheduler.py`:
`atMostOne` (line 61), `sumGtZero` (line 72), `sumEqZero` (line 74),
`inDomain` (line 83, `AddLinearExpressionInDomain` with an explicit value
list), `eqVal` (line 88, fixed meetings), and `link` (lines 107-108, the
pair of `OnlyEnforceIf` constraints tying the per-(block, role) indicator
to positivity of that pair's shift sum). -/
inductive Constr where
  | atMostOne (vars : List SKey)
  | sumGtZero (vars : List SKey)
  | sumEqZero (vars : List SKey)
  | inDomain (vars : List SKey) (dom : List Nat)
  | eqVal (k : SKey) (v : Nat)
  | link (t r : Nat) (vars : List SKey)
deriving DecidableEq, Repr

/-- Removal of absent colleagues (`scheduler.py` lines 30-36): when the
absentee list is non-empty, each role's member list is filtered by
`x not in absent_colleagues`; otherwise the roster is passed through
unchanged. -/
def filterAbsent (roster : List (String × List String)) (absent : List String) :
    List (String × List String) :=
  if absent.length > 0 then
    roster.map (fun p => (p.1, p.2.filter (fun x => !(absent.contains x))))
  else roster

/-- First-occurrence deduplication.  The Python source collects the
filtered members into a `set` (line 41) and then enumerates it (line 43);
within a run the enumeration order of that set is a fixed function of its
contents, which we model as first-occurrence order of the concatenated
role lists. -/
def dedupFO (l : List String) : List String :=
  l.foldl (fun acc x => if acc.contains x then acc else acc ++ [x]) []

/-- The member-name list (in id order) of a run: the set built on
`scheduler.py` line 41 from the absentee-filtered roster. -/
def empsOf (roster : List (String × List String)) (absent : List String) :
    List String :=
  dedupFO (((filterAbsent roster absent).map Prod.snd).flatten)

/-- The normalized roster `_roles_employees` (`scheduler.py` lines 46-48):
role position `idx` maps to the list of integer member ids of that role's
filtered member list, ids given by `_revs_indices_employees`. -/
def rmOf (roster : List (String × List String)) (absent : List String) :
    List (List Nat) :=
  (filterAbsent roster absent).map
    (fun p => p.2.map (fun x => (empsOf roster absent).indexOf x))

/-- Python `int(r[-1])` on a role name (`scheduler.py` line 92): the last
character of the string parsed as a decimal digit; raises `IndexError` on
an empty string and `ValueError` on a non-digit last character. -/
def intLastChar (s : String) : Except String Nat :=
  match s.data.getLast? with
  | none => Except.error "IndexError"
  | some c =>
    if c.isDigit then Except.ok (c.toNat - '0'.toNat) else Except.error "ValueError"

/-- The `add_constraint(t, r, value)` helper (`scheduler.py` lines 86-88):
for each member of `_roles_employees[r-1]` it adds `shifts[(t, r-1, e)] ==
value`.  The dictionary access `_roles_employees[r-1]` raises `KeyError`
when `r-1` is not a role position (including `r = 0`, whose Python key is
`-1`), and `shifts[(t, r-1, e)]` raises `KeyError` when `t` is not a block
index (only reachable when the member list is non-empty). -/
def addConstraintFixed (blocks : Nat) (rm : List (List Nat)) (t d value : Nat) :
    Except String (List Constr) :=
  if 1 ≤ d ∧ d - 1 < rm.length then
    if t < blocks ∨ rm.getD (d - 1) [] = [] then
      Except.ok ((rm.getD (d - 1) []).map (fun e => Constr.eqVal (t, d - 1, e) value))
    else Except.error "KeyError: shifts"
  else Except.error "KeyError: roles"

/-- Processing of one block's requested role-name list (`scheduler.py`
lines 90-92): each requested name `r` is resolved via `int(r[-1])` and
`add_constraint(t, int(r[-1]), 1)` is applied, in list order. -/
def rule4Reqs (blocks : Nat) (rm : List (List Nat)) (t : Nat) :
    List String → Except String (List Constr)
  | [] => Except.ok []
  | r :: rest =>
    match intLastChar r with
    | Except.error msg => Except.error msg
    | Except.ok d =>
      match addConstraintFixed blocks rm t d 1 with
      | Except.error msg => Except.error msg
      | Except.ok cs =>
        match rule4Reqs blocks rm t rest with
        | Except.error msg => Except.error msg
        | Except.ok more => Except.ok (cs ++ more)

/-- One block of fixed-meeting handling (`scheduler.py` lines 90-94): the
requested roles are forced present, then, when `'Role 9'` is not among the
block's requests, `add_constraint(t, 9, 0)` forces role position 8 absent. -/
def rule4Block (blocks : Nat) (rm : List (List Nat)) (t : Nat)
    (rl : List String) : Except String (List Constr) :=
  match rule4Reqs blocks rm t rl with
  | Except.error msg => Except.error msg
  | Except.ok cs =>
    if rl.contains "Role 9" then Except.ok cs
    else
      match addConstraintFixed blocks rm t 9 0 with
      | Except.error msg => Except.error msg
      | Except.ok ex => Except.ok (cs ++ ex)

/-- The full fixed-meeting pass (`scheduler.py` lines 90-94), enumerating
the per-block request lists from block index `t0` upwards. -/
def rule4All (blocks : Nat) (rm : List (List Nat)) :
    Nat → List (List String) → Except String (List Constr)
  | _, [] => Except.ok []
  | t, rl :: rest =>
    match rule4Block blocks rm t rl with
    | Except.error msg => Except.error msg
    | Except.ok cs =>
      match rule4All blocks rm (t + 1) rest with
      | Except.error msg => Except.error msg
      | Except.ok more => Except.ok (cs ++ more)

/-- The shift keys of one role in one block, in member order
(`shifts_assigned` of `scheduler.py` lines 80-82). -/
def blockRoleVars (rm : List (List Nat)) (t r : Nat) : List SKey :=
  (rm.getD r []).map (fun e => (t, r, e))

/-- The shift keys of one role over all blocks, blocks outer and members
inner (`timeslots_assigned` of `scheduler.py` lines 66-70). -/
def roleVarsAux (nB : Nat) (rm : List (List Nat)) (r : Nat) : List SKey :=
  (List.range nB).flatMap (fun t => blockRoleVars rm t r)

/-- Constraint family 1 (`scheduler.py` lines 59-61): for every member id
and block, at most one of the member's eligible roles is attended. -/
def rule1 (nB nEmp : Nat) (rm : List (List Nat)) : List Constr :=
  (List.range nEmp).flatMap (fun e =>
    (List.range nB).map (fun t =>
      Constr.atMostOne
        (((List.range rm.length).filter (fun r => (rm.getD r []).contains e)).map
          (fun r => (t, r, e)))))

/-- Constraint family 2 (`scheduler.py` lines 64-74): every role other
than position 8 has its total shift sum forced strictly positive when it
keeps more than one member, and forced to zero otherwise. -/
def rule2 (nB : Nat) (rm : List (List Nat)) : List Constr :=
  (List.range rm.length).filterMap (fun r =>
    if r = 8 then none
    else if (rm.getD r []).length > 1 then
      some (Constr.sumGtZero (roleVarsAux nB rm r))
    else some (Constr.sumEqZero (roleVarsAux nB rm r)))

/-- Constraint family 3 (`scheduler.py` lines 77-83): for every role and
block, the per-block shift sum lies in the value domain
`[0, max 2 (n-1), n]` where `n` is the role's filtered member count. -/
def rule3 (nB : Nat) (rm : List (List Nat)) : List Constr :=
  (List.range rm.length).flatMap (fun r =>
    (List.range nB).map (fun t =>
      Constr.inDomain (blockRoleVars rm t r)
        [0, max 2 ((rm.getD r []).length - 1), (rm.getD r []).length]))

/-- The indicator-linking constraints of the objective (`scheduler.py`
lines 103-109): one boolean per (block, role) pair, forced true exactly
when the pair's shift sum is positive. -/
def linkConstrs (nB : Nat) (rm : List (List Nat)) : List Constr :=
  (List.range nB).flatMap (fun t =>
    (List.range rm.length).map (fun r => Constr.link t r (blockRoleVars rm t r)))

/-- The built model: block count, normalized roster, member-name codec and
the constraint list in source emission order. -/
structure CModel where
  numBlocks : Nat
  roleMembers : List (List Nat)
  employees : List String
  constraints : List Constr
deriving DecidableEq, Repr, Inhabited

/-- The Model Builder (`main` of `scheduler.py`, lines 24-111 up to the
solver call): roster normalisation, then the four constraint families and
the objective-linking constraints; a Python exception in the fixed-meeting
pass aborts the run with an error. -/
def buildModel (roster : List (String × List String)) (nB : Nat)
    (absent : List String) (fixed : List (List String)) : Except String CModel :=
  match rule4All nB (rmOf roster absent) 0 fixed with
  | Except.error msg => Except.error msg
  | Except.ok c4 =>
    Except.ok
      { numBlocks := nB
        roleMembers := rmOf roster absent
        employees := empsOf roster absent
        constraints :=
          rule1 nB (empsOf roster absent).length (rmOf roster absent)
            ++ rule2 nB (rmOf roster absent)
            ++ rule3 nB (rmOf roster absent)
            ++ c4
            ++ linkConstrs nB (rmOf roster absent) }

/-- Number of true shift variables among a key list under an assignment. -/
def countTrue (s : SKey → Bool) (vars : List SKey) : Nat :=
  vars.countP s

/-- Satisfaction of a single constraint by a shift assignment `s` and an
indicator assignment `ta`. -/
def holdsConstr (s : SKey → Bool) (ta : Nat × Nat → Bool) : Constr → Bool
  | Constr.atMostOne vars => decide (countTrue s vars ≤ 1)
  | Constr.sumGtZero vars => decide (0 < countTrue s vars)
  | Constr.sumEqZero vars => countTrue s vars == 0
  | Constr.inDomain vars dom => dom.contains (countTrue s vars)
  | Constr.eqVal k v => (if s k then 1 else 0) == v
  | Constr.link t r vars =>
    if ta (t, r) then decide (0 < countTrue s vars) else countTrue s vars == 0

/-- A solution accepted by the solver satisfies every constraint of the
model. -/
def satisfies (s : SKey → Bool) (ta : Nat × Nat → Bool) (M : CModel) : Bool :=
  M.constraints.all (holdsConstr s ta)

/-- Shift keys of the whole model in `total_shifts` order (`scheduler.py`
lines 97-101): blocks outer, roles middle, members inner. -/
def shiftKeysAll (nB : Nat) (rm : List (List Nat)) : List SKey :=
  (List.range nB).flatMap (fun t =>
    (List.range rm.length).flatMap (fun r => blockRoleVars rm t r))

/-- The (block, role) pair list in `total_roles` order (`scheduler.py`
lines 103-109). -/
def pairKeys (nB nR : Nat) : List (Nat × Nat) :=
  (List.range nB).flatMap (fun t => (List.range nR).map (fun r => (t, r)))

/-- The objective handed to the solver (`scheduler.py` line 111):
`sum(total_shifts) - sum(total_roles) * 0.1`, as an exact rational. -/
def objectiveValue (s : SKey → Bool) (ta : Nat × Nat → Bool) (M : CModel) : ℚ :=
  (countTrue s (shiftKeysAll M.numBlocks M.roleMembers) : ℚ)
    - ((pairKeys M.numBlocks M.roleMembers.length).countP ta : ℚ) * (1 / 10)

/-- Attendance count of role `r` in block `t` under assignment `s`. -/
def attendCount (s : SKey → Bool) (M : CModel) (t r : Nat) : Nat :=
  countTrue s (blockRoleVars M.roleMembers t r)

/-- Total shift count of role `r` over all blocks under assignment `s`. -/
def roleVars (M : CModel) (r : Nat) : List SKey :=
  roleVarsAux M.numBlocks M.roleMembers r

/-- The rendered attendee-name list of role `r` in block `t`
(`chosen_members` of `scheduler.py` lines 124-127). -/
def chosenMembers (s : SKey → Bool) (M : CModel) (t r : Nat) : List String :=
  ((M.roleMembers.getD r []).filter (fun e => s (t, r, e))).map
    (fun e => M.employees.getD e "")

/-- The verdicts a CP-SAT solve can return. -/
inductive SolverStatus where
  | UNKNOWN
  | MODEL_INVALID
  | FEASIBLE
  | INFEASIBLE
  | OPTIMAL
deriving DecidableEq, Repr

/-- The status-name string of a verdict (`solver.StatusName`). -/
def statusName : SolverStatus → String
  | SolverStatus.UNKNOWN => "UNKNOWN"
  | SolverStatus.MODEL_INVALID => "MODEL_INVALID"
  | SolverStatus.FEASIBLE => "FEASIBLE"
  | SolverStatus.INFEASIBLE => "INFEASIBLE"
  | SolverStatus.OPTIMAL => "OPTIMAL"

/-- The renderer's dispatch (`scheduler.py` line 116): the no-solution
message is produced exactly when the status name is `INFEASIBLE`. -/
def reportsNoSolution (st : SolverStatus) : Bool :=
  statusName st == "INFEASIBLE"

/-- The complementary branch of `scheduler.py` line 118: the per-block
schedule is rendered whenever the no-solution message is not produced. -/
def rendersSchedule (st : SolverStatus) : Bool :=
  !(reportsNoSolution st)

/-- Enumeration index of a role name in the roster (position of the name
in the roster's key order). -/
def roleIdxOf (roster : List (String × List String)) (name : String) : Nat :=
  (roster.map Prod.fst).indexOf name

/-! Concrete instances used as counterexamples and witnesses. -/

/-- The Scenario A roster of the specification. -/
def rosterA : List (String × List String) :=
  [("RoleA", ["Alice", "Bob"]), ("RoleB", ["Carol"])]

/-- A nine-role roster matching the deployment shape of the app (role
names `Role 1` … `Role 9`), with `Role 9` reduced to a single member. -/
def roster9 : List (String × List String) :=
  [("Role 1", ["a1", "b1"]), ("Role 2", ["a2", "b2"]), ("Role 3", ["a3", "b3"]),
   ("Role 4", ["a4", "b4"]), ("Role 5", ["a5", "b5"]), ("Role 6", ["a6", "b6"]),
   ("Role 7", ["a7", "b7"]), ("Role 8", ["a8", "b8"]), ("Role 9", ["a9"])]

/-- The all-attend shift assignment. -/
def sigAll : SKey → Bool := fun _ => true

/-- The all-true indicator assignment. -/
def tauAll : Nat × Nat → Bool := fun _ => true

/-- The model built from `roster9` with one block and `Role 9` requested as
a fixed meeting. -/
def mC1 : CModel :=
  ((buildModel roster9 1 [] [["Role 9"]]).toOption).getD default

/-- A nine-role roster in which the two members of `Role 1` will be marked
absent. -/
def rosterC4 : List (String × List String) :=
  [("Role 1", ["a1", "b1"]), ("Role 2", ["a2", "b2"]), ("Role 3", ["a3", "b3"]),
   ("Role 4", ["a4", "b4"]), ("Role 5", ["a5", "b5"]), ("Role 6", ["a6", "b6"]),
   ("Role 7", ["a7", "b7"]), ("Role 8", ["a8", "b8"]), ("Role 9", ["a9", "b9"])]

/-- The model built from `rosterC4` with both `Role 1` members absent and
`Role 1` requested as a fixed meeting in the single block. -/
def mC4 : CModel :=
  ((buildModel rosterC4 1 ["a1", "b1"] [["Role 1"]]).toOption).getD default

/-- An assignment for `mC4`: everyone except role position 8 attends. -/
def sigC4 : SKey → Bool := fun k => !(k.2.1 == 8)

/-- Indicators matching `sigC4`: positions 0 (emptied) and 8 (excluded)
are inactive. -/
def tauC4 : Nat × Nat → Bool := fun p => !(p.2 == 8) && !(p.2 == 0)

/-- A one-role roster used for small witnesses. -/
def rosterT : List (String × List String) := [("Role 1", ["a", "b"])]

/-- The model built from `rosterT`, one block, nobody absent, no
fixed-meeting request lists. -/
def mT : CModel := ((buildModel rosterT 1 [] []).toOption).getD default

/-- A nine-role roster whose first role keeps a single member. -/
def rosterW : List (String × List String) :=
  [("Role 1", ["a1"]), ("Role 2", ["a2", "b2"]), ("Role 3", ["a3", "b3"]),
   ("Role 4", ["a4", "b4"]), ("Role 5", ["a5", "b5"]), ("Role 6", ["a6", "b6"]),
   ("Role 7", ["a7", "b7"]), ("Role 8", ["a8", "b8"]), ("Role 9", ["a9", "b9"])]

/-- The model built from `rosterW` with one block and an empty request
list for that block. -/
def mW : CModel := ((buildModel rosterW 1 [] [[]]).toOption).getD default

/-- An assignment for `mW`: all roles except positions 0 and 8 attend. -/
def sigW : SKey → Bool := fun k => !(k.2.1 == 0) && !(k.2.1 == 8)

/-- Indicators matching `sigW`. -/
def tauW : Nat × Nat → Bool := fun p => !(p.2 == 0) && !(p.2 == 8)

/-- A nine-role roster whose first role is named `Group 2`: its last
character parses as digit 2 although its enumeration index is 0. -/
def rosterG : List (String × List String) :=
  [("Group 2", ["g1", "g2"]), ("Role 2", ["c1", "d1"]), ("Role 3", ["c2", "d2"]),
   ("Role 4", ["c3", "d3"]), ("Role 5", ["c4", "d4"]), ("Role 6", ["c5", "d5"]),
   ("Role 7", ["c6", "d6"]), ("Role 8", ["c7", "d7"]), ("Role 9", ["c8", "d8"])]

/-- The model built from `rosterG` with `Group 2` requested in block 0. -/
def mG : CModel :=
  ((buildModel rosterG 1 [] [["Group 2"]]).toOption).getD default


/-- The model built from `roster9` with `Role 1` requested in the single
block. -/
def mC5 : CModel :=
  ((buildModel roster9 1 [] [["Role 1"]]).toOption).getD default

/-- A small roster for the normalizer witness. -/
def rosterN : List (String × List String) :=
  [("R1", ["a", "b"]), ("R2", ["c"])]

/-- An absentee list for the normalizer witness: one member of the roster
and one name foreign to it. -/
def absentN : List String := ["c", "zz"]


/-! Helper lemmas about the builder. -/

theorem satisfies_mem {s : SKey → Bool} {ta : Nat × Nat → Bool} {M : CModel}
    (h : satisfies s ta M = true) {c : Constr} (hc : c ∈ M.constraints) :
    holdsConstr s ta c = true :=
  (List.all_eq_true.mp h) c hc

theorem buildModel_ok {roster : List (String × List String)} {nB : Nat}
    {absent : List String} {fixed : List (List String)} {M : CModel}
    (h : buildModel roster nB absent fixed = Except.ok M) :
    ∃ c4, rule4All nB (rmOf roster absent) 0 fixed = Except.ok c4 ∧
      M.numBlocks = nB ∧ M.roleMembers = rmOf roster absent ∧
      M.employees = empsOf roster absent ∧
      M.constraints =
        rule1 nB (empsOf roster absent).length (rmOf roster absent)
          ++ rule2 nB (rmOf roster absent) ++ rule3 nB (rmOf roster absent)
          ++ c4 ++ linkConstrs nB (rmOf roster absent) := by
  revert h
  cases hr : rule4All nB (rmOf roster absent) 0 fixed with
  | error msg => simp [buildModel, hr]
  | ok c4 =>
    intro h
    simp only [buildModel, hr] at h
    injection h with h
    exact ⟨c4, rfl, by rw [← h], by rw [← h], by rw [← h], by rw [← h]⟩

theorem addCF_ok {blocks t d v : Nat} {rm : List (List Nat)} {cs : List Constr}
    (h : addConstraintFixed blocks rm t d v = Except.ok cs) :
    1 ≤ d ∧ d - 1 < rm.length ∧ (t < blocks ∨ rm.getD (d - 1) [] = []) ∧
      cs = (rm.getD (d - 1) []).map (fun e => Constr.eqVal (t, d - 1, e) v) := by
  unfold addConstraintFixed at h
  split at h
  · split at h
    · injection h with h
      exact ⟨‹1 ≤ d ∧ d - 1 < rm.length›.1, ‹1 ≤ d ∧ d - 1 < rm.length›.2, ‹_›, h.symm⟩
    · cases h
  · cases h

theorem rule4Reqs_ok_mem {blocks t : Nat} {rm : List (List Nat)} :
    ∀ {rl : List String} {cs : List Constr},
      rule4Reqs blocks rm t rl = Except.ok cs →
      ∀ rn ∈ rl, ∃ d csr, intLastChar rn = Except.ok d ∧
        addConstraintFixed blocks rm t d 1 = Except.ok csr ∧ ∀ c ∈ csr, c ∈ cs := by
  intro rl
  induction rl with
  | nil => intro cs h rn hrn; cases hrn
  | cons r rest ih =>
    intro cs h rn hrn
    revert h
    cases hd : intLastChar r with
    | error msg => simp [rule4Reqs, hd]
    | ok d =>
      cases ha : addConstraintFixed blocks rm t d 1 with
      | error msg => simp [rule4Reqs, hd, ha]
      | ok cs1 =>
        cases hres : rule4Reqs blocks rm t rest with
        | error msg => simp [rule4Reqs, hd, ha, hres]
        | ok more =>
          simp only [rule4Reqs, hd, ha, hres]
          intro h
          injection h with h
          subst h
          rcases List.mem_cons.mp hrn with heq | hmem
          · subst heq
            exact ⟨d, cs1, hd, ha, fun c hc => List.mem_append.mpr (Or.inl hc)⟩
          · obtain ⟨d2, csr, h1, h2, h3⟩ := ih hres rn hmem
            exact ⟨d2, csr, h1, h2,
              fun c hc => List.mem_append.mpr (Or.inr (h3 c hc))⟩

theorem rule4Reqs_mem_inv {blocks t : Nat} {rm : List (List Nat)} :
    ∀ {rl : List String} {cs : List Constr},
      rule4Reqs blocks rm t rl = Except.ok cs →
      ∀ c ∈ cs, ∃ rn ∈ rl, ∃ d, intLastChar rn = Except.ok d ∧
        c ∈ (rm.getD (d - 1) []).map (fun e => Constr.eqVal (t, d - 1, e) 1) := by
  intro rl
  induction rl with
  | nil =>
    intro cs h c hc
    simp only [rule4Reqs] at h
    injection h with h
    subst h
    cases hc
  | cons r rest ih =>
    intro cs h c hc
    revert h
    cases hd : intLastChar r with
    | error msg => simp [rule4Reqs, hd]
    | ok d =>
      cases ha : addConstraintFixed blocks rm t d 1 with
      | error msg => simp [rule4Reqs, hd, ha]
      | ok cs1 =>
        cases hres : rule4Reqs blocks rm t rest with
        | error msg => simp [rule4Reqs, hd, ha, hres]
        | ok more =>
          simp only [rule4Reqs, hd, ha, hres]
          intro h
          injection h with h
          subst h
          rcases List.mem_append.mp hc with hc1 | hc2
          · obtain ⟨-, -, -, hshape⟩ := addCF_ok ha
            exact ⟨r, List.mem_cons_self r rest, d, hd, hshape ▸ hc1⟩
          · obtain ⟨rn, hrn, d2, h1, h2⟩ := ih hres c hc2
            exact ⟨rn, List.mem_cons_of_mem r hrn, d2, h1, h2⟩

theorem rule4Block_ok_reqs {blocks t : Nat} {rm : List (List Nat)}
    {rl : List String} {cs : List Constr}
    (h : rule4Block blocks rm t rl = Except.ok cs) :
    ∃ csr, rule4Reqs blocks rm t rl = Except.ok csr ∧ ∀ c ∈ csr, c ∈ cs := by
  revert h
  cases hq : rule4Reqs blocks rm t rl with
  | error msg => intro h; simp only [rule4Block, hq] at h; exact Except.noConfusion h
  | ok cs1 =>
    by_cases h9 : rl.contains "Role 9" = true
    · simp only [rule4Block, hq, if_pos h9]
      intro h
      injection h with h
      subst h
      exact ⟨cs1, rfl, fun c hc => hc⟩
    · cases ha : addConstraintFixed blocks rm t 9 0 with
      | error msg => intro h; simp only [rule4Block, hq, if_neg h9, ha] at h; exact Except.noConfusion h
      | ok ex =>
        simp only [rule4Block, hq, if_neg h9, ha]
        intro h
        injection h with h
        subst h
        exact ⟨cs1, rfl, fun c hc => List.mem_append.mpr (Or.inl hc)⟩

theorem rule4Block_ok_excl {blocks t : Nat} {rm : List (List Nat)}
    {rl : List String} {cs : List Constr}
    (h : rule4Block blocks rm t rl = Except.ok cs)
    (h9 : ¬ rl.contains "Role 9" = true) :
    ∀ e ∈ rm.getD 8 [], Constr.eqVal (t, 8, e) 0 ∈ cs := by
  revert h
  cases hq : rule4Reqs blocks rm t rl with
  | error msg => intro h; simp only [rule4Block, hq] at h; exact Except.noConfusion h
  | ok cs1 =>
    cases ha : addConstraintFixed blocks rm t 9 0 with
    | error msg => intro h; simp only [rule4Block, hq, if_neg h9, ha] at h; exact Except.noConfusion h
    | ok ex =>
      simp only [rule4Block, hq, if_neg h9, ha]
      intro h
      injection h with h
      subst h
      intro e he
      obtain ⟨-, -, -, hshape⟩ := addCF_ok ha
      refine List.mem_append.mpr (Or.inr ?_)
      rw [hshape]
      exact List.mem_map.mpr ⟨e, he, rfl⟩

theorem rule4Block_mem_inv {blocks t : Nat} {rm : List (List Nat)}
    {rl : List String} {cs : List Constr}
    (h : rule4Block blocks rm t rl = Except.ok cs) :
    ∀ c ∈ cs,
      (∃ rn ∈ rl, ∃ d, intLastChar rn = Except.ok d ∧
        c ∈ (rm.getD (d - 1) []).map (fun e => Constr.eqVal (t, d - 1, e) 1))
      ∨ (¬ rl.contains "Role 9" = true ∧
        c ∈ (rm.getD 8 []).map (fun e => Constr.eqVal (t, 8, e) 0)) := by
  revert h
  cases hq : rule4Reqs blocks rm t rl with
  | error msg => intro h; simp only [rule4Block, hq] at h; exact Except.noConfusion h
  | ok cs1 =>
    by_cases h9 : rl.contains "Role 9" = true
    · simp only [rule4Block, hq, if_pos h9]
      intro h
      injection h with h
      subst h
      intro c hc
      exact Or.inl (rule4Reqs_mem_inv hq c hc)
    · cases ha : addConstraintFixed blocks rm t 9 0 with
      | error msg => intro h; simp only [rule4Block, hq, if_neg h9, ha] at h; exact Except.noConfusion h
      | ok ex =>
        simp only [rule4Block, hq, if_neg h9, ha]
        intro h
        injection h with h
        subst h
        intro c hc
        rcases List.mem_append.mp hc with hc1 | hc2
        · exact Or.inl (rule4Reqs_mem_inv hq c hc1)
        · obtain ⟨-, -, -, hshape⟩ := addCF_ok ha
          exact Or.inr ⟨h9, hshape ▸ hc2⟩

theorem rule4All_ok_block {blocks : Nat} {rm : List (List Nat)} :
    ∀ {fixed : List (List String)} {t0 : Nat} {cs : List Constr},
      rule4All blocks rm t0 fixed = Except.ok cs →
      ∀ {i : Nat} {rl : List String}, fixed[i]? = some rl →
        ∃ csb, rule4Block blocks rm (t0 + i) rl = Except.ok csb ∧
          ∀ c ∈ csb, c ∈ cs := by
  intro fixed
  induction fixed with
  | nil => intro t0 cs h i rl hi; cases hi
  | cons rl0 rest ih =>
    intro t0 cs h i rl hi
    revert h
    cases hb : rule4Block blocks rm t0 rl0 with
    | error msg => intro h; simp only [rule4All, hb] at h; exact Except.noConfusion h
    | ok cs1 =>
      cases hrest : rule4All blocks rm (t0 + 1) rest with
      | error msg => intro h; simp only [rule4All, hb, hrest] at h; exact Except.noConfusion h
      | ok more =>
        simp only [rule4All, hb, hrest]
        intro h
        injection h with h
        subst h
        cases i with
        | zero =>
          have hrl : rl0 = rl := by simpa using hi
          subst hrl
          exact ⟨cs1, by simpa using hb,
            fun c hc => List.mem_append.mpr (Or.inl hc)⟩
        | succ j =>
          obtain ⟨csb, h1, h2⟩ := ih hrest (by simpa using hi)
          refine ⟨csb, ?_, fun c hc => List.mem_append.mpr (Or.inr (h2 c hc))⟩
          have harith : t0 + 1 + j = t0 + (j + 1) := by omega
          rw [← harith]
          exact h1

theorem rule4All_mem_inv {blocks : Nat} {rm : List (List Nat)} :
    ∀ {fixed : List (List String)} {t0 : Nat} {cs : List Constr},
      rule4All blocks rm t0 fixed = Except.ok cs →
      ∀ c ∈ cs, ∃ i rl csb, fixed[i]? = some rl ∧
        rule4Block blocks rm (t0 + i) rl = Except.ok csb ∧ c ∈ csb := by
  intro fixed
  induction fixed with
  | nil =>
    intro t0 cs h c hc
    simp only [rule4All] at h
    injection h with h
    subst h
    cases hc
  | cons rl0 rest ih =>
    intro t0 cs h c hc
    revert h
    cases hb : rule4Block blocks rm t0 rl0 with
    | error msg => intro h; simp only [rule4All, hb] at h; exact Except.noConfusion h
    | ok cs1 =>
      cases hrest : rule4All blocks rm (t0 + 1) rest with
      | error msg => intro h; simp only [rule4All, hb, hrest] at h; exact Except.noConfusion h
      | ok more =>
        simp only [rule4All, hb, hrest]
        intro h
        injection h with h
        subst h
        rcases List.mem_append.mp hc with hc1 | hc2
        · exact ⟨0, rl0, cs1, by simp, by simpa using hb, hc1⟩
        · obtain ⟨j, rl, csb, h1, h2, h3⟩ := ih hrest c hc2
          refine ⟨j + 1, rl, csb, by simpa using h1, ?_, h3⟩
          have harith : t0 + (j + 1) = t0 + 1 + j := by omega
          rw [harith]
          exact h2

theorem rule1_shape {nB nE : Nat} {rm : List (List Nat)} {c : Constr}
    (h : c ∈ rule1 nB nE rm) : ∃ vs, c = Constr.atMostOne vs := by
  simp only [rule1, List.mem_flatMap, List.mem_map, List.mem_range] at h
  obtain ⟨e, -, t, -, hc⟩ := h
  exact ⟨_, hc.symm⟩

theorem rule2_shape {nB : Nat} {rm : List (List Nat)} {c : Constr}
    (h : c ∈ rule2 nB rm) :
    (∃ vs, c = Constr.sumGtZero vs) ∨ (∃ vs, c = Constr.sumEqZero vs) := by
  simp only [rule2, List.mem_filterMap, List.mem_range] at h
  obtain ⟨r, -, hc⟩ := h
  by_cases h8 : r = 8
  · rw [if_pos h8] at hc; cases hc
  · rw [if_neg h8] at hc
    by_cases hn : (rm.getD r []).length > 1
    · rw [if_pos hn] at hc
      injection hc with hc
      exact Or.inl ⟨_, hc.symm⟩
    · rw [if_neg hn] at hc
      injection hc with hc
      exact Or.inr ⟨_, hc.symm⟩

theorem rule3_shape {nB : Nat} {rm : List (List Nat)} {c : Constr}
    (h : c ∈ rule3 nB rm) : ∃ vs dom, c = Constr.inDomain vs dom := by
  simp only [rule3, List.mem_flatMap, List.mem_map, List.mem_range] at h
  obtain ⟨r, -, t, -, hc⟩ := h
  exact ⟨_, _, hc.symm⟩

theorem linkConstrs_shape {nB : Nat} {rm : List (List Nat)} {c : Constr}
    (h : c ∈ linkConstrs nB rm) : ∃ t r vs, c = Constr.link t r vs := by
  simp only [linkConstrs, List.mem_flatMap, List.mem_map, List.mem_range] at h
  obtain ⟨t, -, r, -, hc⟩ := h
  exact ⟨_, _, _, hc.symm⟩

theorem rule2_mem_eqZero {nB r : Nat} {rm : List (List Nat)}
    (hr : r < rm.length) (h8 : r ≠ 8)
    (hsmall : ¬ (rm.getD r []).length > 1) :
    Constr.sumEqZero (roleVarsAux nB rm r) ∈ rule2 nB rm := by
  refine List.mem_filterMap.mpr ⟨r, List.mem_range.mpr hr, ?_⟩
  rw [if_neg h8, if_neg hsmall]

theorem rule3_mem {nB t r : Nat} {rm : List (List Nat)}
    (hr : r < rm.length) (ht : t < nB) :
    Constr.inDomain (blockRoleVars rm t r)
      [0, max 2 ((rm.getD r []).length - 1), (rm.getD r []).length]
      ∈ rule3 nB rm := by
  refine List.mem_flatMap.mpr ⟨r, List.mem_range.mpr hr, ?_⟩
  exact List.mem_map.mpr ⟨t, List.mem_range.mpr ht, rfl⟩

theorem linkConstrs_mem {nB t r : Nat} {rm : List (List Nat)}
    (ht : t < nB) (hr : r < rm.length) :
    Constr.link t r (blockRoleVars rm t r) ∈ linkConstrs nB rm := by
  refine List.mem_flatMap.mpr ⟨t, List.mem_range.mpr ht, ?_⟩
  exact List.mem_map.mpr ⟨r, List.mem_range.mpr hr, rfl⟩

theorem eqVal_mem_rule4 {roster : List (String × List String)} {nB : Nat}
    {absent : List String} {fixed : List (List String)} {M : CModel}
    {c4 : List Constr}
    (hM : buildModel roster nB absent fixed = Except.ok M)
    (hc4 : rule4All nB (rmOf roster absent) 0 fixed = Except.ok c4)
    {k : SKey} {v : Nat}
    (h : Constr.eqVal k v ∈ M.constraints) : Constr.eqVal k v ∈ c4 := by
  obtain ⟨c4b, hc4b, -, -, -, hcs⟩ := buildModel_ok hM
  have hb : c4b = c4 := by
    rw [hc4b] at hc4
    injection hc4
  subst hb
  rw [hcs] at h
  rcases List.mem_append.mp h with h | hlink
  rcases List.mem_append.mp h with h | h4
  rcases List.mem_append.mp h with h | h3
  rcases List.mem_append.mp h with h1 | h2
  · obtain ⟨vs, hv⟩ := rule1_shape h1; cases hv
  · rcases rule2_shape h2 with ⟨vs, hv⟩ | ⟨vs, hv⟩ <;> cases hv
  · obtain ⟨vs, dom, hv⟩ := rule3_shape h3; cases hv
  · exact h4
  · obtain ⟨t, r, vs, hv⟩ := linkConstrs_shape hlink; cases hv

theorem countP_congr_mem {α : Type} (l : List α) (p q : α → Bool)
    (h : ∀ a ∈ l, p a = q a) : l.countP p = l.countP q := by
  induction l with
  | nil => rfl
  | cons a as ih =>
    rw [List.countP_cons, List.countP_cons, h a (List.mem_cons_self a as),
      ih (fun b hb => h b (List.mem_cons_of_mem a hb))]

theorem mem_roleVarsAux {nB r : Nat} {rm : List (List Nat)} {k : SKey}
    (h : k ∈ roleVarsAux nB rm r) :
    ∃ t e, t < nB ∧ e ∈ rm.getD r [] ∧ k = (t, r, e) := by
  simp only [roleVarsAux, blockRoleVars, List.mem_flatMap, List.mem_map,
    List.mem_range] at h
  obtain ⟨t, ht, e, he, hk⟩ := h
  exact ⟨t, e, ht, he, hk.symm⟩

theorem holds_eqZero {s : SKey → Bool} {ta : Nat × Nat → Bool} {vs : List SKey}
    (h : holdsConstr s ta (Constr.sumEqZero vs) = true) : countTrue s vs = 0 := by
  simpa [holdsConstr] using h

theorem holds_eqVal_zero {s : SKey → Bool} {ta : Nat × Nat → Bool} {k : SKey}
    (h : holdsConstr s ta (Constr.eqVal k 0) = true) : s k = false := by
  by_cases hb : s k
  · simp [holdsConstr, hb] at h
  · exact Bool.eq_false_iff.mpr hb

theorem holds_eqVal_one {s : SKey → Bool} {ta : Nat × Nat → Bool} {k : SKey}
    (h : holdsConstr s ta (Constr.eqVal k 1) = true) : s k = true := by
  by_cases hb : s k
  · exact hb
  · simp [holdsConstr, hb] at h

theorem contains_iff_mem {α : Type} [BEq α] [LawfulBEq α] {l : List α} {a : α} :
    l.contains a = true ↔ a ∈ l :=
  List.elem_iff

/-! Claim theorems. -/

/-- C2: the specification's Scenario A (roster `{RoleA: [Alice, Bob],
RoleB: [Carol]}`, 2 blocks, no absentees, no fixed meetings) is claimed to
build and solve without crashing.  The code instead raises `KeyError` on
`_roles_employees[8]`: the default `Role 9` exclusion of lines 93-94 runs
for every block and indexes the missing role position 8 of the two-role
roster. -/
theorem C2_scenarioA_crash :
    buildModel rosterA 2 [] [[], []] = Except.error "KeyError: roles" := rfl

/-- C3 counterexample: at the concrete status `UNKNOWN` (the verdict CP-SAT
returns on timeout), the renderer dispatch of line 116 takes the rendering
branch and does not report the no-solution message, contradicting the
claim that any verdict other than feasible/optimal reports no-solution and
renders nothing. -/
theorem C3_timeout_render_cex :
    rendersSchedule SolverStatus.UNKNOWN = true ∧
    reportsNoSolution SolverStatus.UNKNOWN = false ∧
    SolverStatus.UNKNOWN ≠ SolverStatus.FEASIBLE ∧
    SolverStatus.UNKNOWN ≠ SolverStatus.OPTIMAL := by
  exact ⟨rfl, rfl, by decide, by decide⟩

/-- C3 amended: the no-solution message is produced exactly on the
`INFEASIBLE` verdict, and the per-block schedule is rendered on every
other verdict — including the timeout/unknown verdict. -/
theorem C3_timeout_render_amended (st : SolverStatus) :
    (reportsNoSolution st = true ↔ st = SolverStatus.INFEASIBLE) ∧
    (rendersSchedule st = true ↔ st ≠ SolverStatus.INFEASIBLE) := by
  cases st <;> exact ⟨by decide, by decide⟩

/-- C9: the Model Builder is deterministic — two runs on identical inputs
that both return a model return the same variable-id codec, the same
normalized roster (hence the same Shift-variable key set) and the same
constraint list. -/
theorem C9_builder_deterministic
    (roster : List (String × List String)) (nB : Nat) (absent : List String)
    (fixed : List (List String)) (M M2 : CModel)
    (h1 : buildModel roster nB absent fixed = Except.ok M)
    (h2 : buildModel roster nB absent fixed = Except.ok M2) :
    M.employees = M2.employees ∧ M.roleMembers = M2.roleMembers ∧
    M.numBlocks = M2.numBlocks ∧ M.constraints = M2.constraints := by
  rw [h1] at h2
  injection h2 with h2
  subst h2
  exact ⟨rfl, rfl, rfl, rfl⟩

/-- Witness for C9 at a concrete run. -/
theorem C9_builder_deterministic_witness :
    buildModel rosterT 1 [] [] = Except.ok mT ∧
    mT.employees = mT.employees ∧ mT.constraints = mT.constraints :=
  ⟨rfl, (C9_builder_deterministic rosterT 1 [] [] mT mT rfl rfl).1,
    (C9_builder_deterministic rosterT 1 [] [] mT mT rfl rfl).2.2.2⟩

/-- C6: in any accepted solution of a built model, every role's attendance
count in every block lies in the domain of constraint family 3 —
zero, `max 2 (n - 1)`, or `n`, for `n` the role's filtered member count. -/
theorem C6_cohesion_domain
    (roster : List (String × List String)) (nB : Nat) (absent : List String)
    (fixed : List (List String)) (M : CModel) (s : SKey → Bool)
    (ta : Nat × Nat → Bool)
    (hM : buildModel roster nB absent fixed = Except.ok M)
    (hs : satisfies s ta M = true) (t r : Nat)
    (hr : r < M.roleMembers.length) (ht : t < M.numBlocks) :
    attendCount s M t r = 0 ∨
    attendCount s M t r = max 2 ((M.roleMembers.getD r []).length - 1) ∨
    attendCount s M t r = (M.roleMembers.getD r []).length := by
  obtain ⟨c4, hc4, hnB, hrm, hemp, hcs⟩ := buildModel_ok hM
  have hr2 : r < (rmOf roster absent).length := by rw [← hrm]; exact hr
  have ht2 : t < nB := by rw [← hnB]; exact ht
  have hin : Constr.inDomain (blockRoleVars (rmOf roster absent) t r)
      [0, max 2 (((rmOf roster absent).getD r []).length - 1),
        ((rmOf roster absent).getD r []).length] ∈ M.constraints := by
    rw [hcs]
    exact List.mem_append.mpr (Or.inl (List.mem_append.mpr (Or.inl
      (List.mem_append.mpr (Or.inr (rule3_mem hr2 ht2))))))
  have hh := satisfies_mem hs hin
  simp only [holdsConstr] at hh
  have hmem := contains_iff_mem.mp hh
  simp only [attendCount, hrm]
  simpa using hmem

/-- Witness for C6 on a concrete accepted solution. -/
theorem C6_cohesion_domain_witness :
    satisfies sigAll tauAll mT = true ∧
    (attendCount sigAll mT 0 0 = 0 ∨
     attendCount sigAll mT 0 0 = max 2 ((mT.roleMembers.getD 0 []).length - 1) ∨
     attendCount sigAll mT 0 0 = (mT.roleMembers.getD 0 []).length) :=
  ⟨rfl, C6_cohesion_domain rosterT 1 [] [] mT sigAll tauAll rfl rfl 0 0
    (by decide) (by decide)⟩

/-- C1 counterexample: with `roster9` (where the exempt role `Role 9` has
exactly one filtered member) and `Role 9` requested as a fixed meeting in
block 0, the all-attend assignment satisfies every constraint of the built
model while the exempt role's total shift count is 1, not 0.  The claim's
quantification over all roles — the exempt role included — is therefore
false. -/
theorem C1_exclusion_cex :
    buildModel roster9 1 [] [["Role 9"]] = Except.ok mC1 ∧
    satisfies sigAll tauAll mC1 = true ∧
    (mC1.roleMembers.getD 8 []).length = 1 ∧
    countTrue sigAll (roleVars mC1 8) = 1 :=
  ⟨rfl, rfl, rfl, rfl⟩

/-- C1 amended: in any accepted solution, a role with at most one filtered
member has total shift count zero provided it is not the exempt role
position 8; for the exempt role the same conclusion holds whenever the
run's per-block fixed-meeting lists cover all blocks and none of them
requests `Role 9`. -/
theorem C1_exclusion_amended
    (roster : List (String × List String)) (nB : Nat) (absent : List String)
    (fixed : List (List String)) (M : CModel) (s : SKey → Bool)
    (ta : Nat × Nat → Bool)
    (hM : buildModel roster nB absent fixed = Except.ok M)
    (hs : satisfies s ta M = true) (r : Nat)
    (hr : r < M.roleMembers.length)
    (hsmall : (M.roleMembers.getD r []).length ≤ 1)
    (hcase : r ≠ 8 ∨
      (fixed.length = nB ∧ ∀ rl ∈ fixed, ¬ rl.contains "Role 9" = true)) :
    countTrue s (roleVars M r) = 0 := by
  obtain ⟨c4, hc4, hnB, hrm, hemp, hcs⟩ := buildModel_ok hM
  have hrv : roleVars M r = roleVarsAux nB (rmOf roster absent) r := by
    simp only [roleVars, hnB, hrm]
  by_cases h8 : r = 8
  · rcases hcase with h | ⟨hlen, h9all⟩
    · exact absurd h8 h
    · subst h8
      rw [hrv]
      simp only [countTrue]
      refine List.countP_eq_zero.mpr ?_
      intro k hk
      obtain ⟨t, e, ht, he, hkeq⟩ := mem_roleVarsAux hk
      subst hkeq
      have htf : t < fixed.length := by omega
      have hget : fixed[t]? = some fixed[t] := List.getElem?_eq_getElem htf
      obtain ⟨csb, hb, hsub⟩ := rule4All_ok_block hc4 hget
      rw [Nat.zero_add] at hb
      have hex := rule4Block_ok_excl hb (h9all fixed[t] (List.getElem_mem htf)) e he
      have hinc4 : Constr.eqVal (t, 8, e) 0 ∈ M.constraints := by
        rw [hcs]
        exact List.mem_append.mpr (Or.inl (List.mem_append.mpr (Or.inr
          (hsub _ hex))))
      have hsk := holds_eqVal_zero (satisfies_mem hs hinc4)
      simp [hsk]
  · have hr2 : r < (rmOf roster absent).length := by rw [← hrm]; exact hr
    have hsm2 : ¬ (((rmOf roster absent).getD r []).length > 1) := by
      rw [← hrm]; omega
    have hin : Constr.sumEqZero (roleVarsAux nB (rmOf roster absent) r)
        ∈ M.constraints := by
      rw [hcs]
      exact List.mem_append.mpr (Or.inl (List.mem_append.mpr (Or.inl
        (List.mem_append.mpr (Or.inl (List.mem_append.mpr
          (Or.inr (rule2_mem_eqZero hr2 h8 hsm2))))))))
    have hz := holds_eqZero (satisfies_mem hs hin)
    rw [hrv]
    exact hz

/-- Witness for C1's amended statement: in `rosterW` role position 0 keeps
one member and, with no request anywhere, its total shift count is zero in
the exhibited accepted solution. -/
theorem C1_exclusion_amended_witness :
    satisfies sigW tauW mW = true ∧
    (mW.roleMembers.getD 0 []).length ≤ 1 ∧
    countTrue sigW (roleVars mW 0) = 0 :=
  ⟨rfl, by decide,
    C1_exclusion_amended rosterW 1 [] [[]] mW sigW tauW rfl rfl 0
      (by decide) (by decide) (Or.inl (by decide))⟩

/-- C4 counterexample: with `rosterC4`, both members of `Role 1` absent
and `Role 1` requested as a fixed meeting in block 0, the builder succeeds
(no infeasibility): the exhibited assignment satisfies every constraint of
the built model, yet the rendered block-0 attendee list of the requested
role is empty — the schedule simply omits the requested meeting. -/
theorem C4_empty_request_cex :
    buildModel rosterC4 1 ["a1", "b1"] [["Role 1"]] = Except.ok mC4 ∧
    mC4.roleMembers.getD 0 [] = [] ∧
    satisfies sigC4 tauC4 mC4 = true ∧
    chosenMembers sigC4 mC4 0 0 = [] :=
  ⟨rfl, rfl, rfl, rfl⟩

/-- C4 amended: a fixed-meeting request resolving to a role whose filtered
member list is empty adds no constraint at all — the builder emits no
`Shift = value` constraint mentioning that role, so the model is not made
infeasible by the request and an accepted solution omits the meeting. -/
theorem C4_empty_request_amended
    (roster : List (String × List String)) (nB : Nat) (absent : List String)
    (fixed : List (List String)) (M : CModel) (j : Nat)
    (hM : buildModel roster nB absent fixed = Except.ok M)
    (hempty : M.roleMembers.getD j [] = []) :
    ∀ t e v, Constr.eqVal (t, j, e) v ∉ M.constraints := by
  intro t e v hmem
  obtain ⟨c4, hc4, hnB, hrm, hemp, hcs⟩ := buildModel_ok hM
  have hin4 := eqVal_mem_rule4 hM hc4 hmem
  obtain ⟨i, rl, csb, hi, hb, hcmem⟩ := rule4All_mem_inv hc4 _ hin4
  have hempty2 : ∀ j2, j2 = j → (rmOf roster absent).getD j2 [] = [] := by
    intro j2 hj2
    subst hj2
    rw [← hrm]
    exact hempty
  rcases rule4Block_mem_inv hb _ hcmem with ⟨rn, hrn, d, hd, hmap⟩ | ⟨h9, hmap⟩
  · obtain ⟨e2, he2, heq⟩ := List.mem_map.mp hmap
    injection heq with h1 h2
    injection h1 with hti hrest
    injection hrest with hji hei
    rw [hempty2 (d - 1) hji] at he2
    exact absurd he2 (List.not_mem_nil e2)
  · obtain ⟨e2, he2, heq⟩ := List.mem_map.mp hmap
    injection heq with h1 h2
    injection h1 with hti hrest
    injection hrest with hji hei
    rw [hempty2 8 hji] at he2
    exact absurd he2 (List.not_mem_nil e2)

/-- Witness for C4's amended statement on the concrete emptied role. -/
theorem C4_empty_request_amended_witness :
    Constr.eqVal (0, 0, 0) 1 ∉ mC4.constraints :=
  C4_empty_request_amended rosterC4 1 ["a1", "b1"] [["Role 1"]] mC4 0
    rfl rfl 0 0 1

/-- C7: in any accepted solution, the objective handed to the solver
equals the total number of true Shift variables minus one tenth of the
number of (block, role) pairs whose shift sum is strictly positive, and
each per-(block, role) indicator is true exactly when that pair's shift
sum is strictly positive. -/
theorem C7_objective_form
    (roster : List (String × List String)) (nB : Nat) (absent : List String)
    (fixed : List (List String)) (M : CModel) (s : SKey → Bool)
    (ta : Nat × Nat → Bool)
    (hM : buildModel roster nB absent fixed = Except.ok M)
    (hs : satisfies s ta M = true) :
    objectiveValue s ta M =
      (countTrue s (shiftKeysAll M.numBlocks M.roleMembers) : ℚ)
        - (1 / 10) *
          (((pairKeys M.numBlocks M.roleMembers.length).countP
            (fun p => decide (0 < attendCount s M p.1 p.2))) : ℚ)
    ∧ ∀ t r, t < M.numBlocks → r < M.roleMembers.length →
        (ta (t, r) = true ↔ 0 < attendCount s M t r) := by
  obtain ⟨c4, hc4, hnB, hrm, hemp, hcs⟩ := buildModel_ok hM
  have hpt : ∀ t r, t < M.numBlocks → r < M.roleMembers.length →
      ta (t, r) = decide (0 < attendCount s M t r) := by
    intro t r ht hr
    have ht2 : t < nB := by rw [← hnB]; exact ht
    have hr2 : r < (rmOf roster absent).length := by rw [← hrm]; exact hr
    have hin : Constr.link t r (blockRoleVars (rmOf roster absent) t r)
        ∈ M.constraints := by
      rw [hcs]
      exact List.mem_append.mpr (Or.inr (linkConstrs_mem ht2 hr2))
    have hh := satisfies_mem hs hin
    simp only [holdsConstr] at hh
    have hac : attendCount s M t r =
        countTrue s (blockRoleVars (rmOf roster absent) t r) := by
      simp only [attendCount, hrm]
    by_cases hta : ta (t, r) = true
    · rw [if_pos hta] at hh
      rw [hta, hac]
      exact hh.symm
    · have hta2 : ta (t, r) = false := Bool.eq_false_iff.mpr hta
      rw [if_neg hta] at hh
      have h0 : countTrue s (blockRoleVars (rmOf roster absent) t r) = 0 := by
        simpa using hh
      rw [hta2, hac, h0]
      simp
  refine ⟨?_, fun t r ht hr => by rw [hpt t r ht hr]; simp⟩
  simp only [objectiveValue]
  have hcnt : (pairKeys M.numBlocks M.roleMembers.length).countP ta =
      (pairKeys M.numBlocks M.roleMembers.length).countP
        (fun p => decide (0 < attendCount s M p.1 p.2)) := by
    apply countP_congr_mem
    intro p hp
    have hbound : p.1 < M.numBlocks ∧ p.2 < M.roleMembers.length := by
      simp only [pairKeys, List.mem_flatMap, List.mem_map, List.mem_range] at hp
      obtain ⟨t, ht, r, hr, hpe⟩ := hp
      rw [← hpe]
      exact ⟨ht, hr⟩
    exact hpt p.1 p.2 hbound.1 hbound.2
  rw [hcnt]
  ring

/-- Witness for C7 on a concrete accepted solution. -/
theorem C7_objective_form_witness :
    objectiveValue sigAll tauAll mT =
      (countTrue sigAll (shiftKeysAll mT.numBlocks mT.roleMembers) : ℚ)
        - (1 / 10) *
          (((pairKeys mT.numBlocks mT.roleMembers.length).countP
            (fun p => decide (0 < attendCount sigAll mT p.1 p.2))) : ℚ) ∧
    (tauAll (0, 0) = true ↔ 0 < attendCount sigAll mT 0 0) :=
  ⟨(C7_objective_form rosterT 1 [] [] mT sigAll tauAll rfl rfl).1,
   (C7_objective_form rosterT 1 [] [] mT sigAll tauAll rfl rfl).2 0 0
     (by decide) (by decide)⟩

theorem mapFilterNil (l : List (String × List String)) :
    l.map (fun p => (p.1, p.2.filter (fun x => !(([] : List String).contains x))))
      = l := by
  induction l with
  | nil => rfl
  | cons p rest ih =>
    have hfil : p.2.filter (fun x => !(([] : List String).contains x)) = p.2 :=
      List.filter_eq_self.mpr (fun a _ => rfl)
    rw [List.map_cons, ih, hfil]

theorem filterAbsent_eq (roster : List (String × List String))
    (absent : List String) :
    filterAbsent roster absent =
      roster.map (fun p => (p.1, p.2.filter (fun x => !(absent.contains x)))) := by
  unfold filterAbsent
  split
  · rfl
  · next hlen =>
    have hnil : absent = [] := by
      cases absent with
      | nil => rfl
      | cons a as => exact absurd (by simp) hlen
    subst hnil
    exact (mapFilterNil roster).symm

/-- C8: the Roster Normalizer — positionally, each role survives with its
name unchanged and its member list filtered by the absentee list; the
surviving members form a sublist of the original (original relative order
kept); a role from which no absentee is removed is untouched; a role whose
every member is absent becomes the empty list; and an absentee name that
occurs nowhere in the roster has no effect on the output. -/
theorem C8_normalizer (roster : List (String × List String))
    (absent : List String) :
    (∀ (i : Nat) (name : String) (mem : List String),
      roster[i]? = some (name, mem) →
      (filterAbsent roster absent)[i]? =
          some (name, mem.filter (fun x => !(absent.contains x)))
        ∧ (mem.filter (fun x => !(absent.contains x))).Sublist mem
        ∧ ((∀ x ∈ mem, x ∉ absent) →
            mem.filter (fun x => !(absent.contains x)) = mem)
        ∧ ((∀ x ∈ mem, x ∈ absent) →
            mem.filter (fun x => !(absent.contains x)) = []))
    ∧ (∀ y, (∀ p ∈ roster, y ∉ p.2) →
        filterAbsent roster (y :: absent) = filterAbsent roster absent) := by
  constructor
  · intro i name mem hi
    refine ⟨?_, List.filter_sublist mem, ?_, ?_⟩
    · rw [filterAbsent_eq, List.getElem?_map, hi]
      rfl
    · intro hnone
      refine List.filter_eq_self.mpr ?_
      intro a ha
      simp
      intro hmem2
      exact hnone a ha hmem2
    · intro hall
      refine List.filter_eq_nil_iff.mpr ?_
      intro a ha
      simp
      exact hall a ha
  · intro y hy
    rw [filterAbsent_eq, filterAbsent_eq]
    apply List.map_congr_left
    intro p hp
    have hfil : p.2.filter (fun x => !((y :: absent).contains x)) =
        p.2.filter (fun x => !(absent.contains x)) := by
      apply List.filter_congr
      intro x hx
      have hne : (x == y) = false := by
        refine beq_eq_false_iff_ne.mpr ?_
        intro hxy
        exact hy p hp (hxy ▸ hx)
      rw [List.contains_cons, hne, Bool.false_or]
    rw [hfil]

/-- Witness for C8 at a concrete roster and absentee list. -/
theorem C8_normalizer_witness :
    (filterAbsent rosterN absentN)[1]? =
      some ("R2", ["c"].filter (fun x => !(absentN.contains x))) ∧
    filterAbsent rosterN ("zz" :: absentN) = filterAbsent rosterN absentN :=
  ⟨((C8_normalizer rosterN absentN).1 1 "R2" ["c"] (by decide)).1,
   (C8_normalizer rosterN absentN).2 "zz" (by decide)⟩

/-- C5: fixed-meeting enforcement, for runs whose requested role names
follow the deployment naming convention (each requested name's last
character parses to one plus its enumeration index).  For a block whose
request list is `rl`: every filtered member of each requested role is
forced present (`Shift = 1`); when `Role 9` is not requested, every
filtered member of role position 8 is forced absent (`Shift = 0`); and no
`Shift = value` forcing touches any other unrequested role in that
block. -/
theorem C5_fixed_enforcement
    (roster : List (String × List String)) (nB : Nat) (absent : List String)
    (fixed : List (List String)) (M : CModel) (t : Nat) (rl : List String)
    (hM : buildModel roster nB absent fixed = Except.ok M)
    (hrl : fixed[t]? = some rl)
    (hconv : ∀ rn ∈ rl, intLastChar rn = Except.ok (roleIdxOf roster rn + 1)) :
    (∀ rn ∈ rl, ∀ e ∈ M.roleMembers.getD (roleIdxOf roster rn) [],
        Constr.eqVal (t, roleIdxOf roster rn, e) 1 ∈ M.constraints)
    ∧ (¬ rl.contains "Role 9" = true →
        ∀ e ∈ M.roleMembers.getD 8 [], Constr.eqVal (t, 8, e) 0 ∈ M.constraints)
    ∧ (∀ j v e, j ≠ 8 → (∀ rn ∈ rl, roleIdxOf roster rn ≠ j) →
        Constr.eqVal (t, j, e) v ∉ M.constraints) := by
  obtain ⟨c4, hc4, hnB, hrm, hemp, hcs⟩ := buildModel_ok hM
  obtain ⟨csb, hb, hsub⟩ := rule4All_ok_block hc4 hrl
  rw [Nat.zero_add] at hb
  have hToM : ∀ c ∈ csb, c ∈ M.constraints := by
    intro c hc
    rw [hcs]
    exact List.mem_append.mpr (Or.inl (List.mem_append.mpr (Or.inr
      (hsub c hc))))
  refine ⟨?_, ?_, ?_⟩
  · intro rn hrn e he
    obtain ⟨csr, hq, hsubr⟩ := rule4Block_ok_reqs hb
    obtain ⟨d, csr2, hd, ha, hsubr2⟩ := rule4Reqs_ok_mem hq rn hrn
    have hdv : d = roleIdxOf roster rn + 1 := by
      have h2 := hconv rn hrn
      rw [hd] at h2
      injection h2
    obtain ⟨hd1, hdlt, hdom, hshape⟩ := addCF_ok ha
    have he2 : e ∈ (rmOf roster absent).getD (d - 1) [] := by
      rw [hdv]
      simp only [Nat.add_sub_cancel]
      rw [← hrm]
      exact he
    have hin : Constr.eqVal (t, d - 1, e) 1 ∈ csr2 := by
      rw [hshape]
      exact List.mem_map.mpr ⟨e, he2, rfl⟩
    have hfin := hToM _ (hsubr _ (hsubr2 _ hin))
    rw [hdv] at hfin
    simpa using hfin
  · intro h9 e he
    have he2 : e ∈ (rmOf roster absent).getD 8 [] := by rw [← hrm]; exact he
    exact hToM _ (rule4Block_ok_excl hb h9 e he2)
  · intro j v e hj8 hjreq hmem
    have hin4 := eqVal_mem_rule4 hM hc4 hmem
    obtain ⟨i, rl2, csb2, hi2, hb2, hcmem2⟩ := rule4All_mem_inv hc4 _ hin4
    rw [Nat.zero_add] at hb2
    rcases rule4Block_mem_inv hb2 _ hcmem2 with ⟨rn, hrn, d, hd, hmap⟩ | ⟨h9x, hmap⟩
    · obtain ⟨e2, he2, heq⟩ := List.mem_map.mp hmap
      injection heq with h1 h2
      injection h1 with hti hrest
      injection hrest with hji hei
      subst hti
      have hrleq : rl = rl2 := by
        rw [hrl] at hi2
        injection hi2
      subst hrleq
      have h2conv := hconv rn hrn
      rw [hd] at h2conv
      injection h2conv with hdd
      exact hjreq rn hrn (by omega)
    · obtain ⟨e2, he2, heq⟩ := List.mem_map.mp hmap
      injection heq with h1 h2
      injection h1 with hti hrest
      injection hrest with hji hei
      exact hj8 hji.symm

/-- Witness for C5: with `roster9` and `Role 1` requested in block 0, the
first member of role position 0 is forced present, the member of excluded
role position 8 is forced absent, and the unrequested role position 3 is
untouched by any forcing constraint. -/
theorem C5_fixed_enforcement_witness :
    Constr.eqVal (0, roleIdxOf roster9 "Role 1", 0) 1 ∈ mC5.constraints ∧
    Constr.eqVal (0, 8, 16) 0 ∈ mC5.constraints ∧
    Constr.eqVal (0, 3, 6) 1 ∉ mC5.constraints := by
  have hconv : ∀ rn ∈ ["Role 1"],
      intLastChar rn = Except.ok (roleIdxOf roster9 rn + 1) := by
    intro rn hrn
    have heq := List.mem_singleton.mp hrn
    subst heq
    rfl
  have h := C5_fixed_enforcement roster9 1 [] [["Role 1"]] mC5 0 ["Role 1"]
    rfl (by decide) hconv
  refine ⟨h.1 "Role 1" (by decide) 0 (by decide),
    h.2.1 (by decide) 16 (by decide), h.2.2 3 1 6 (by decide) ?_⟩
  intro rn hrn
  have heq := List.mem_singleton.mp hrn
  subst heq
  decide

/-- C10: fixed-meeting requests are resolved by parsing the last character
of the requested role name as a decimal digit and subtracting one, not by
the role's enumeration index.  If the last character of a requested name
is not a digit the builder errors out; if it parses to `d` and the build
succeeds, the forcing constraints of that request target role position
`d - 1`, which differs from the requested role's enumeration index
whenever `d` is not that index plus one. -/
theorem C10_last_digit_resolution
    (roster : List (String × List String)) (nB : Nat) (absent : List String)
    (fixed : List (List String)) (i : Nat) (rl : List String) (rname : String)
    (hrl : fixed[i]? = some rl) (hmem : rname ∈ rl) :
    ((∀ d, ¬ intLastChar rname = Except.ok d) →
      ∃ msg, buildModel roster nB absent fixed = Except.error msg)
    ∧ (∀ d M, intLastChar rname = Except.ok d →
        buildModel roster nB absent fixed = Except.ok M →
        1 ≤ d ∧ d - 1 < M.roleMembers.length ∧
        (∀ e ∈ M.roleMembers.getD (d - 1) [],
          Constr.eqVal (i, d - 1, e) 1 ∈ M.constraints) ∧
        (d ≠ roleIdxOf roster rname + 1 → d - 1 ≠ roleIdxOf roster rname)) := by
  constructor
  · intro hnod
    cases hbm : buildModel roster nB absent fixed with
    | error msg => exact ⟨msg, rfl⟩
    | ok M =>
      obtain ⟨c4, hc4, -, -, -, -⟩ := buildModel_ok hbm
      obtain ⟨csb, hb, -⟩ := rule4All_ok_block hc4 hrl
      obtain ⟨csr, hq, -⟩ := rule4Block_ok_reqs hb
      obtain ⟨d, -, hd, -, -⟩ := rule4Reqs_ok_mem hq rname hmem
      exact absurd hd (hnod d)
  · intro d M hd hbm
    obtain ⟨c4, hc4, hnB, hrm, hemp, hcs⟩ := buildModel_ok hbm
    obtain ⟨csb, hb, hsub⟩ := rule4All_ok_block hc4 hrl
    rw [Nat.zero_add] at hb
    obtain ⟨csr, hq, hsubr⟩ := rule4Block_ok_reqs hb
    obtain ⟨d2, csr2, hd2, ha, hsubr2⟩ := rule4Reqs_ok_mem hq rname hmem
    have hdd : d = d2 := by
      rw [hd] at hd2
      injection hd2 with h3
    subst hdd
    obtain ⟨hd1, hdlt, hdom, hshape⟩ := addCF_ok ha
    refine ⟨hd1, by rw [hrm]; exact hdlt, ?_, fun hne => by omega⟩
    intro e he
    have he2 : e ∈ (rmOf roster absent).getD (d - 1) [] := by
      rw [← hrm]
      exact he
    have hin : Constr.eqVal (i, d - 1, e) 1 ∈ csr2 := by
      rw [hshape]
      exact List.mem_map.mpr ⟨e, he2, rfl⟩
    rw [hcs]
    exact List.mem_append.mpr (Or.inl (List.mem_append.mpr (Or.inr
      (hsub _ (hsubr _ (hsubr2 _ hin))))))

/-- Witness for C10 at two concrete runs: the request `RoleX` (non-digit
last character) aborts the build with an error, and the request `Group 2`
(digit 2, enumeration index 0) forces members of role position 1 instead
of its own role position 0. -/
theorem C10_last_digit_resolution_witness :
    (∃ msg, buildModel roster9 1 [] [["RoleX"]] = Except.error msg) ∧
    Constr.eqVal (0, 2 - 1, 2) 1 ∈ mG.constraints ∧
    2 - 1 ≠ roleIdxOf rosterG "Group 2" := by
  refine ⟨?_, ?_, ?_⟩
  · refine (C10_last_digit_resolution roster9 1 [] [["RoleX"]] 0 ["RoleX"]
      "RoleX" (by decide) (by decide)).1 ?_
    intro d hd
    have hval : intLastChar "RoleX" = Except.error "ValueError" := rfl
    rw [hval] at hd
    cases hd
  · exact ((C10_last_digit_resolution rosterG 1 [] [["Group 2"]] 0
      ["Group 2"] "Group 2" (by decide) (by decide)).2 2 mG rfl rfl).2.2.1
      2 (by decide)
  · exact ((C10_last_digit_resolution rosterG 1 [] [["Group 2"]] 0
      ["Group 2"] "Group 2" (by decide) (by decide)).2 2 mG rfl rfl).2.2.2
      (by decide)
